import Mathlib

/-!
Verification of the diff alignment and classification engine of the studio
repository.

The engine lives in the `DiffDisplay` component (src/unnamed/part_001,
lines 232-366): it consumes the change list produced by the external `diff`
library (line-level operations, each `{ value, added?, removed?, count? }`)
and renders two row-synchronized panes.  Rows are JSX elements in the source;
here a row is abstracted to the data it displays: the optional line number in
the gutter, the rendered text content, the character spans (for modified
rows), and its background classification.

Strings are modelled as lists of characters (`JStr`), so that JavaScript's
`value.split('\n')` becomes a structurally recursive function.
-/

namespace Studio

/-- JavaScript strings, modelled as lists of characters. -/
abbrev JStr := List Char

/-- JavaScript `value.split('\n')`: splits at every newline character; always
returns at least one (possibly empty) segment, and a trailing newline yields a
trailing empty segment. -/
def splitNl : JStr → List JStr
  | [] => [[]]
  | c :: cs =>
    if c = '\n' then [] :: splitNl cs
    else
      match splitNl cs with
      | [] => [[c]]
      | l :: ls => (c :: l) :: ls

/-- JavaScript `value.endsWith('\n')`. -/
def endsNl (v : JStr) : Bool := v.getLast? == some '\n'

/-- Source `getDisplayLines` (part_001 lines 232-242): empty value is one
empty line; a value ending in a newline has the trailing empty segment of the
split dropped; otherwise the plain split is returned. -/
def getDisplayLines (value : JStr) : List JStr :=
  if value = [] then [[]]
  else
    let lines := splitNl value
    if endsNl value then lines.dropLast else lines

/-- One line-level operation from the external `diff` library (the `Change`
objects consumed by `DiffDisplay`): a text payload, optional added/removed
flags, and the optional declared line count. -/
structure DiffChange where
  value : JStr
  added : Bool := false
  removed : Bool := false
  count : Option Nat := none
  deriving DecidableEq

/-- One character-level operation from the external `diffChars` function. -/
structure CharDiffOp where
  value : JStr
  added : Bool := false
  removed : Bool := false
  deriving DecidableEq

/-- Background classification of a rendered row (the CSS class chosen in the
source: none, green, red, yellow, or the blank placeholder line). -/
inductive RowStyle
  | unchanged
  | added
  | removed
  | modified
  | placeholder
  deriving DecidableEq

/-- One character span inside a modified row: its text and whether it is
rendered highlighted. -/
structure CharSpan where
  text : JStr
  changed : Bool
  deriving DecidableEq

/-- One rendered row: the data carried by one line `div` in the source
component.  `content` is the text rendered inside the `code` element (for a
modified row, the concatenation of its spans). -/
structure Row where
  lineNumber : Option Nat
  content : JStr
  spans : Option (List CharSpan)
  style : RowStyle
  deriving DecidableEq

/-- Original-side spans of a modified line (part_001 lines 278-289): the char
operations are walked in order, those marked `added` render nothing, the rest
render a span highlighted exactly when the operation is `removed`. -/
def origSpans (cds : List CharDiffOp) : List CharSpan :=
  cds.filterMap fun c => if c.added then none else some ⟨c.value, c.removed⟩

/-- Modified-side spans of a modified line (part_001 lines 295-306): operations
marked `removed` render nothing, the rest render a span highlighted exactly
when the operation is `added`. -/
def modSpans (cds : List CharDiffOp) : List CharSpan :=
  cds.filterMap fun c => if c.removed then none else some ⟨c.value, c.added⟩

/-- The text a span list renders: the concatenation of the span texts. -/
def spansText (ss : List CharSpan) : JStr := (ss.map CharSpan.text).flatten

/-- The blank alignment row: no line number, no content, placeholder style. -/
def placeholderRow : Row := ⟨none, [], none, .placeholder⟩

/-- A numbered content row with no character spans. -/
def realRow (n : Nat) (content : JStr) (s : RowStyle) : Row := ⟨some n, content, none, s⟩

/-- The original-pane row of one modified line: numbered, yellow, rendering the
original-side spans. -/
def origModRow (n : Nat) (cds : List CharDiffOp) : Row :=
  ⟨some n, spansText (origSpans cds), some (origSpans cds), .modified⟩

/-- The modified-pane row of one modified line. -/
def modModRow (n : Nat) (cds : List CharDiffOp) : Row :=
  ⟨some n, spansText (modSpans cds), some (modSpans cds), .modified⟩

/-- The rows a modified block emits (part_001 lines 272-313): for each line
index `j`, `diffChars` runs on the j-th original and modified line and one
modified row goes to each pane, numbered from the pane's counter. -/
def pairRows (cd : JStr → JStr → List CharDiffOp) (ol ml : List JStr) (o m : Nat) :
    List Row × List Row :=
  ((ol.zip ml).enum.map fun p => origModRow (o + p.1) (cd p.2.1 p.2.2),
   (ol.zip ml).enum.map fun p => modModRow (m + p.1) (cd p.2.1 p.2.2))

/-- The rows one standalone operation emits together with the updated line
counters (part_001 lines 319-365): removed operations put red rows in the
original pane and placeholders opposite, added operations the mirror image,
anything else (the `else` branch) an unchanged row in both panes.  The
`removed` flag is tested first, exactly as in the source. -/
def standaloneRows (part : DiffChange) (o m : Nat) : (List Row × List Row) × Nat × Nat :=
  let ls := getDisplayLines part.value
  if part.removed then
    ((ls.enum.map fun p => realRow (o + p.1) p.2 .removed,
      ls.map fun _ => placeholderRow), o + ls.length, m)
  else if part.added then
    ((ls.map fun _ => placeholderRow,
      ls.enum.map fun p => realRow (m + p.1) p.2 .added), o, m + ls.length)
  else
    ((ls.enum.map fun p => realRow (o + p.1) p.2 .unchanged,
      ls.enum.map fun p => realRow (m + p.1) p.2 .unchanged), o + ls.length, m + ls.length)

/-- The modified-block test of the source (part_001 line 265):
`part.removed && nextPart && nextPart.added && part.count === nextPart.count
&& part.count && part.count > 0`. -/
def pairCond (part next : DiffChange) : Bool :=
  part.removed && next.added && part.count == next.count &&
    (match part.count with
     | some n => decide (0 < n)
     | none => false)

/-- The full condition under which the source consumes two operations at once:
the modified-block test plus the safeguard comparing the actual split line
counts (part_001 line 271). -/
def pairStep (part next : DiffChange) : Bool :=
  pairCond part next &&
    (getDisplayLines part.value).length == (getDisplayLines next.value).length

/-- The `while` loop of `DiffDisplay` (part_001 lines 258-367), with the two
line counters passed explicitly: a removed operation followed by an added one
with matching declared and actual line counts is consumed as a modified block
(`i += 2`), anything else is consumed standalone (`i++`). -/
def alignLoop (cd : JStr → JStr → List CharDiffOp) :
    List DiffChange → Nat → Nat → List Row × List Row
  | [], _, _ => ([], [])
  | [part], o, m =>
    let sr := standaloneRows part o m
    (sr.1.1, sr.1.2)
  | part :: next :: rest2, o, m =>
    if pairStep part next then
      let ol := getDisplayLines part.value
      let ml := getDisplayLines next.value
      let pr := pairRows cd ol ml o m
      let cont := alignLoop cd rest2 (o + ol.length) (m + ml.length)
      (pr.1 ++ cont.1, pr.2 ++ cont.2)
    else
      let sr := standaloneRows part o m
      let cont := alignLoop cd (next :: rest2) sr.2.1 sr.2.2
      (sr.1.1 ++ cont.1, sr.1.2 ++ cont.2)

/-- How many operations the loop consumes at its current position: two when
the modified-block branch fires, one otherwise. -/
def stepConsumed : List DiffChange → Nat
  | [] => 0
  | [_] => 1
  | part :: next :: _ => if pairStep part next then 2 else 1

/-- The component's result: the sentinel paragraph rendered when the change
list is empty (part_001 lines 246-248), or the two aligned row lists. -/
inductive RenderResult
  | empty
  | model (originalRows modifiedRows : List Row)
  deriving DecidableEq

/-- The whole `DiffDisplay` component over an abstract character differ `cd`:
empty input renders the sentinel, otherwise the loop runs with both line
counters starting at 1. -/
def DiffDisplay (cd : JStr → JStr → List CharDiffOp) (diff : List DiffChange) : RenderResult :=
  if diff.isEmpty then .empty
  else
    let r := alignLoop cd diff 1 1
    .model r.1 r.2

/-- A concrete character differ used to instantiate theorems: the whole first
line removed, the whole second line added.  A legitimate output shape of the
external `diffChars`. -/
def simpleCharDiff (a b : JStr) : List CharDiffOp :=
  [⟨a, false, true⟩, ⟨b, true, false⟩]

/-- An operation is well formed when it is not marked both added and removed. -/
def opOK (p : DiffChange) : Bool := !(p.added && p.removed)

/-- A change list is well typed when every operation is well formed. -/
def wellTyped (ops : List DiffChange) : Bool := ops.all opOK

/-- The reconstruction assumption on the external character differ (spec
section 6): excluding added spans reproduces the first argument and excluding
removed spans reproduces the second. -/
def cdOK (cd : JStr → JStr → List CharDiffOp) : Prop :=
  ∀ a b, spansText (origSpans (cd a b)) = a ∧ spansText (modSpans (cd a b)) = b

/-- Joining display lines with newlines (the inverse direction of splitting). -/
def joinNl : List JStr → JStr
  | [] => []
  | [l] => l
  | l :: ls => l ++ '\n' :: joinNl ls

/-- The non-placeholder rows of one pane. -/
def realRows (rows : List Row) : List Row :=
  rows.filter fun r => !(r.style == RowStyle.placeholder)

/-- The contents of the non-placeholder rows of one pane, in order. -/
def paneContents (rows : List Row) : List JStr := (realRows rows).map Row.content

/-- The text one pane reconstructs: its non-placeholder contents joined with
newlines. -/
def paneText (rows : List Row) : JStr := joinNl (paneContents rows)

/-- The line numbers of the non-placeholder rows of one pane, in order. -/
def rowNums (rows : List Row) : List (Option Nat) := (realRows rows).map Row.lineNumber

/-- The values of the operations that own lines of the original text: the
common and removed ones. -/
def origVals (ops : List DiffChange) : List JStr :=
  (ops.filter fun p => !p.added).map DiffChange.value

/-- The values of the operations that own lines of the modified text. -/
def modVals (ops : List DiffChange) : List JStr :=
  (ops.filter fun p => !p.removed).map DiffChange.value

/-- The canonical shape of a line differ's output values: every value but the
last ends with a newline, and the last does not. -/
def chainOK : List JStr → Bool
  | [] => true
  | [v] => !endsNl v
  | v :: vs => endsNl v && chainOK vs

/-- A render result is well formed when its two row lists have equal length. -/
def wfRender : RenderResult → Prop
  | .empty => True
  | .model ro rm => ro.length = rm.length

/-- Original-side spans as the specification words them: the operations not
marked added, in order, each a span changed exactly when removed. -/
def specOrigSpans (cds : List CharDiffOp) : List CharSpan :=
  (cds.filter fun c => !c.added).map fun c => ⟨c.value, c.removed⟩

/-- Modified-side spans as the specification words them. -/
def specModSpans (cds : List CharDiffOp) : List CharSpan :=
  (cds.filter fun c => !c.removed).map fun c => ⟨c.value, c.added⟩

/-! ### Splitting and joining lines -/

theorem splitNl_ne_nil : ∀ v : JStr, splitNl v ≠ []
  | [] => by simp [splitNl]
  | c :: cs => by
    simp only [splitNl]
    split
    · simp
    · cases h : splitNl cs <;> simp

theorem joinNl_cons_cons (a b : JStr) (ls : List JStr) :
    joinNl (a :: b :: ls) = a ++ '\n' :: joinNl (b :: ls) := rfl

theorem joinNl_splitNl : ∀ v : JStr, joinNl (splitNl v) = v
  | [] => rfl
  | c :: cs => by
    have ih := joinNl_splitNl cs
    simp only [splitNl]
    split
    · rename_i hc
      subst hc
      cases h : splitNl cs with
      | nil => exact absurd h (splitNl_ne_nil cs)
      | cons l ls =>
        rw [h] at ih
        rw [joinNl_cons_cons]
        simpa using ih
    · cases h : splitNl cs with
      | nil => exact absurd h (splitNl_ne_nil cs)
      | cons l ls =>
        rw [h] at ih
        cases ls with
        | nil => simpa [joinNl] using congrArg (c :: ·) ih
        | cons l2 ls2 =>
          rw [joinNl_cons_cons] at ih ⊢
          simpa using ih

theorem splitNl_concat_nl : ∀ u : JStr, splitNl (u ++ ['\n']) = splitNl u ++ [[]]
  | [] => rfl
  | c :: cs => by
    have ih := splitNl_concat_nl cs
    show splitNl (c :: (cs ++ ['\n'])) = splitNl (c :: cs) ++ [[]]
    simp only [splitNl]
    split
    · simp [ih]
    · rw [ih]
      cases h : splitNl cs with
      | nil => exact absurd h (splitNl_ne_nil cs)
      | cons l ls => simp

theorem endsNl_concat (u : JStr) : endsNl (u ++ ['\n']) = true := by
  simp [endsNl]

theorem endsNl_exists {v : JStr} (h : endsNl v = true) : ∃ u, v = u ++ ['\n'] := by
  unfold endsNl at h
  rw [beq_iff_eq] at h
  exact ⟨v.dropLast, (List.dropLast_append_getLast? '\n' (Option.mem_def.mpr h)).symm⟩

theorem getDisplayLines_not_endsNl {v : JStr} (h : endsNl v = false) :
    getDisplayLines v = splitNl v := by
  by_cases hv : v = []
  · subst hv; rfl
  · simp [getDisplayLines, hv, h]

theorem getDisplayLines_concat_nl (u : JStr) : getDisplayLines (u ++ ['\n']) = splitNl u := by
  have hne : u ++ ['\n'] ≠ [] := by simp
  simp [getDisplayLines, hne, endsNl_concat, splitNl_concat_nl]

theorem getDisplayLines_ne_nil (v : JStr) : getDisplayLines v ≠ [] := by
  by_cases hv : v = []
  · subst hv; simp [getDisplayLines]
  · cases h : endsNl v with
    | false => rw [getDisplayLines_not_endsNl h]; exact splitNl_ne_nil v
    | true =>
      obtain ⟨u, rfl⟩ := endsNl_exists h
      rw [getDisplayLines_concat_nl]
      exact splitNl_ne_nil u

theorem joinNl_getDisplayLines_not_endsNl {v : JStr} (h : endsNl v = false) :
    joinNl (getDisplayLines v) = v := by
  rw [getDisplayLines_not_endsNl h, joinNl_splitNl]

theorem joinNl_getDisplayLines_endsNl {v : JStr} (h : endsNl v = true) :
    joinNl (getDisplayLines v) ++ ['\n'] = v := by
  obtain ⟨u, rfl⟩ := endsNl_exists h
  rw [getDisplayLines_concat_nl, joinNl_splitNl]

theorem joinNl_append {l2 : List JStr} (h2 : l2 ≠ []) :
    ∀ l1 : List JStr, l1 ≠ [] → joinNl (l1 ++ l2) = joinNl l1 ++ '\n' :: joinNl l2
  | [], h1 => absurd rfl h1
  | [a], _ => by
    cases l2 with
    | nil => exact absurd rfl h2
    | cons b l2 => simp [joinNl_cons_cons, joinNl]
  | a :: b :: l1, _ => by
    have ih := joinNl_append h2 (b :: l1) (by simp)
    calc joinNl ((a :: b :: l1) ++ l2)
        = a ++ '\n' :: joinNl ((b :: l1) ++ l2) := joinNl_cons_cons a b (l1 ++ l2)
      _ = a ++ '\n' :: (joinNl (b :: l1) ++ '\n' :: joinNl l2) := by rw [ih]
      _ = joinNl (a :: b :: l1) ++ '\n' :: joinNl l2 := by rw [joinNl_cons_cons]; simp

theorem joinNl_flatMap_chainOK : ∀ vs : List JStr, chainOK vs = true →
    joinNl (vs.flatMap getDisplayLines) = vs.flatten
  | [], _ => rfl
  | [v], h => by
    simp only [chainOK, Bool.not_eq_true'] at h
    simp [joinNl_getDisplayLines_not_endsNl h]
  | v :: w :: vs, h => by
    simp only [chainOK, Bool.and_eq_true] at h
    have ih := joinNl_flatMap_chainOK (w :: vs) h.2
    have h1 : getDisplayLines v ≠ [] := getDisplayLines_ne_nil v
    have h2 : (w :: vs).flatMap getDisplayLines ≠ [] := by
      simp only [List.flatMap_cons]
      intro hc
      exact getDisplayLines_ne_nil w (List.append_eq_nil.mp hc).1
    rw [List.flatMap_cons, joinNl_append h2 (getDisplayLines v) h1, ih]
    have hv := joinNl_getDisplayLines_endsNl h.1
    calc joinNl (getDisplayLines v) ++ '\n' :: (w :: vs).flatten
        = (joinNl (getDisplayLines v) ++ ['\n']) ++ (w :: vs).flatten := by simp
      _ = v ++ (w :: vs).flatten := by rw [hv]
      _ = (v :: w :: vs).flatten := by simp

/-! ### Row blocks: contents, numbers, balance -/

theorem realRows_append (a b : List Row) : realRows (a ++ b) = realRows a ++ realRows b := by
  simp [realRows]

theorem paneContents_append (a b : List Row) :
    paneContents (a ++ b) = paneContents a ++ paneContents b := by
  simp [paneContents, realRows_append]

theorem rowNums_append (a b : List Row) : rowNums (a ++ b) = rowNums a ++ rowNums b := by
  simp [rowNums, realRows_append]

theorem realRows_of_no_placeholder {rows : List Row}
    (h : ∀ r ∈ rows, (r.style == RowStyle.placeholder) = false) : realRows rows = rows := by
  unfold realRows
  rw [List.filter_eq_self]
  intro r hr
  simp [h r hr]

theorem realRows_placeholders (ls : List JStr) :
    realRows (ls.map fun _ => placeholderRow) = [] := by
  unfold realRows
  rw [List.filter_eq_nil_iff]
  intro r hr
  obtain ⟨x, hx, rfl⟩ := List.mem_map.mp hr
  simp [placeholderRow]

theorem paneContents_placeholders (ls : List JStr) :
    paneContents (ls.map fun _ => placeholderRow) = [] := by
  rw [paneContents, realRows_placeholders]
  rfl

theorem rowNums_placeholders (ls : List JStr) :
    rowNums (ls.map fun _ => placeholderRow) = [] := by
  rw [rowNums, realRows_placeholders]
  rfl

theorem realRows_replicate_placeholder (n : Nat) :
    realRows (List.replicate n placeholderRow) = [] := by
  unfold realRows
  rw [List.filter_eq_nil_iff]
  intro r hr
  rw [List.eq_of_mem_replicate hr]
  simp [placeholderRow]

theorem paneContents_replicate_placeholder (n : Nat) :
    paneContents (List.replicate n placeholderRow) = [] := by
  rw [paneContents, realRows_replicate_placeholder]
  rfl

theorem rowNums_replicate_placeholder (n : Nat) :
    rowNums (List.replicate n placeholderRow) = [] := by
  rw [rowNums, realRows_replicate_placeholder]
  rfl

theorem realRows_realBlock (ls : List JStr) (o : Nat) (sty : RowStyle)
    (h : (sty == RowStyle.placeholder) = false) :
    realRows (ls.enum.map fun q => realRow (o + q.1) q.2 sty) =
      ls.enum.map fun q => realRow (o + q.1) q.2 sty := by
  apply realRows_of_no_placeholder
  intro r hr
  obtain ⟨q, hq, rfl⟩ := List.mem_map.mp hr
  simpa [realRow] using h

theorem paneContents_realBlock (ls : List JStr) (o : Nat) (sty : RowStyle)
    (h : (sty == RowStyle.placeholder) = false) :
    paneContents (ls.enum.map fun q => realRow (o + q.1) q.2 sty) = ls := by
  rw [paneContents, realRows_realBlock ls o sty h, List.map_map]
  exact List.enum_map_snd ls

theorem rowNums_realBlock (ls : List JStr) (o : Nat) (sty : RowStyle)
    (h : (sty == RowStyle.placeholder) = false) :
    rowNums (ls.enum.map fun q => realRow (o + q.1) q.2 sty) =
      (List.range' o ls.length).map some := by
  rw [rowNums, realRows_realBlock ls o sty h, List.map_map]
  show ls.enum.map ((fun n => some (o + n)) ∘ Prod.fst) = (List.range' o ls.length).map some
  rw [← List.map_map, List.enum_map_fst, List.range'_eq_map_range, List.map_map]
  rfl

theorem realRows_pairBlock (zs : List (JStr × JStr)) (n : Nat)
    (f : Nat → List CharDiffOp → Row)
    (hf : ∀ k cds, (f k cds).style = RowStyle.modified) (cd : JStr → JStr → List CharDiffOp) :
    realRows (zs.enum.map fun p => f (n + p.1) (cd p.2.1 p.2.2)) =
      zs.enum.map fun p => f (n + p.1) (cd p.2.1 p.2.2) := by
  apply realRows_of_no_placeholder
  intro r hr
  obtain ⟨q, hq, rfl⟩ := List.mem_map.mp hr
  simp [hf]

theorem paneContents_pairRows_fst {cd : JStr → JStr → List CharDiffOp} (hcd : cdOK cd)
    (ol ml : List JStr) (o m : Nat) (hlen : ol.length = ml.length) :
    paneContents (pairRows cd ol ml o m).1 = ol := by
  rw [paneContents, pairRows,
    realRows_pairBlock (ol.zip ml) o (fun k cds => origModRow k cds) (fun _ _ => rfl) cd,
    List.map_map]
  show (ol.zip ml).enum.map ((fun q : JStr × JStr => spansText (origSpans (cd q.1 q.2))) ∘ Prod.snd)
    = ol
  rw [← List.map_map, List.enum_map_snd]
  rw [List.map_congr_left fun q _ => (hcd q.1 q.2).1]
  exact List.map_fst_zip ol ml (le_of_eq hlen)

theorem paneContents_pairRows_snd {cd : JStr → JStr → List CharDiffOp} (hcd : cdOK cd)
    (ol ml : List JStr) (o m : Nat) (hlen : ol.length = ml.length) :
    paneContents (pairRows cd ol ml o m).2 = ml := by
  rw [paneContents, pairRows,
    realRows_pairBlock (ol.zip ml) m (fun k cds => modModRow k cds) (fun _ _ => rfl) cd,
    List.map_map]
  show (ol.zip ml).enum.map ((fun q : JStr × JStr => spansText (modSpans (cd q.1 q.2))) ∘ Prod.snd)
    = ml
  rw [← List.map_map, List.enum_map_snd]
  rw [List.map_congr_left fun q _ => (hcd q.1 q.2).2]
  exact List.map_snd_zip ol ml (le_of_eq hlen.symm)

theorem rowNums_pairRows_fst (cd : JStr → JStr → List CharDiffOp)
    (ol ml : List JStr) (o m : Nat) :
    rowNums (pairRows cd ol ml o m).1 = (List.range' o (ol.zip ml).length).map some := by
  rw [rowNums, pairRows,
    realRows_pairBlock (ol.zip ml) o (fun k cds => origModRow k cds) (fun _ _ => rfl) cd,
    List.map_map]
  show (ol.zip ml).enum.map ((fun n => some (o + n)) ∘ Prod.fst)
    = (List.range' o (ol.zip ml).length).map some
  rw [← List.map_map, List.enum_map_fst, List.range'_eq_map_range, List.map_map]
  rfl

theorem rowNums_pairRows_snd (cd : JStr → JStr → List CharDiffOp)
    (ol ml : List JStr) (o m : Nat) :
    rowNums (pairRows cd ol ml o m).2 = (List.range' m (ol.zip ml).length).map some := by
  rw [rowNums, pairRows,
    realRows_pairBlock (ol.zip ml) m (fun k cds => modModRow k cds) (fun _ _ => rfl) cd,
    List.map_map]
  show (ol.zip ml).enum.map ((fun n => some (m + n)) ∘ Prod.fst)
    = (List.range' m (ol.zip ml).length).map some
  rw [← List.map_map, List.enum_map_fst, List.range'_eq_map_range, List.map_map]
  rfl

theorem standaloneRows_balanced (part : DiffChange) (o m : Nat) :
    (standaloneRows part o m).1.1.length = (standaloneRows part o m).1.2.length := by
  by_cases hr : part.removed <;> by_cases ha : part.added <;> simp [standaloneRows, hr, ha]

theorem pairRows_balanced (cd : JStr → JStr → List CharDiffOp) (ol ml : List JStr) (o m : Nat) :
    (pairRows cd ol ml o m).1.length = (pairRows cd ol ml o m).2.length := by
  simp [pairRows]

/-! ### Unfolding the loop -/

theorem alignLoop_nil (cd : JStr → JStr → List CharDiffOp) (o m : Nat) :
    alignLoop cd [] o m = ([], []) := rfl

theorem alignLoop_single (cd : JStr → JStr → List CharDiffOp) (part : DiffChange) (o m : Nat) :
    alignLoop cd [part] o m = ((standaloneRows part o m).1.1, (standaloneRows part o m).1.2) :=
  rfl

theorem alignLoop_pair_true (cd : JStr → JStr → List CharDiffOp) (part next : DiffChange)
    (rest : List DiffChange) (o m : Nat) (h : pairStep part next = true) :
    alignLoop cd (part :: next :: rest) o m =
      ((pairRows cd (getDisplayLines part.value) (getDisplayLines next.value) o m).1 ++
        (alignLoop cd rest (o + (getDisplayLines part.value).length)
          (m + (getDisplayLines next.value).length)).1,
       (pairRows cd (getDisplayLines part.value) (getDisplayLines next.value) o m).2 ++
        (alignLoop cd rest (o + (getDisplayLines part.value).length)
          (m + (getDisplayLines next.value).length)).2) := by
  simp [alignLoop, h]

theorem alignLoop_pair_false (cd : JStr → JStr → List CharDiffOp) (part next : DiffChange)
    (rest : List DiffChange) (o m : Nat) (h : pairStep part next = false) :
    alignLoop cd (part :: next :: rest) o m =
      ((standaloneRows part o m).1.1 ++
        (alignLoop cd (next :: rest) (standaloneRows part o m).2.1
          (standaloneRows part o m).2.2).1,
       (standaloneRows part o m).1.2 ++
        (alignLoop cd (next :: rest) (standaloneRows part o m).2.1
          (standaloneRows part o m).2.2).2) := by
  simp [alignLoop, h]

theorem alignLoop_cons_no_pair (cd : JStr → JStr → List CharDiffOp) (part : DiffChange)
    (rest : List DiffChange) (o m : Nat)
    (h : ∀ next rest2, rest = next :: rest2 → pairStep part next = false) :
    alignLoop cd (part :: rest) o m =
      ((standaloneRows part o m).1.1 ++
        (alignLoop cd rest (standaloneRows part o m).2.1 (standaloneRows part o m).2.2).1,
       (standaloneRows part o m).1.2 ++
        (alignLoop cd rest (standaloneRows part o m).2.1 (standaloneRows part o m).2.2).2) := by
  cases rest with
  | nil => simp [alignLoop]
  | cons next rest2 => exact alignLoop_pair_false cd part next rest2 o m (h next rest2 rfl)

theorem alignLoop_balanced (cd : JStr → JStr → List CharDiffOp) :
    ∀ (ops : List DiffChange) (o m : Nat),
      (alignLoop cd ops o m).1.length = (alignLoop cd ops o m).2.length
  | [], _, _ => rfl
  | [part], o, m => standaloneRows_balanced part o m
  | part :: next :: rest, o, m => by
    have ih2 := alignLoop_balanced cd rest
    have ih1 := alignLoop_balanced cd (next :: rest)
    by_cases h : pairStep part next
    · rw [alignLoop_pair_true cd part next rest o m h]
      simp [pairRows_balanced, ih2, List.length_append, pairRows]
    · rw [alignLoop_pair_false cd part next rest o m (by simpa using h)]
      simp [List.length_append, ih1, standaloneRows_balanced]

theorem stepConsumed_two_iff (part next : DiffChange) (rest : List DiffChange) :
    stepConsumed (part :: next :: rest) = 2 ↔ pairStep part next = true := by
  by_cases h : pairStep part next <;> simp [stepConsumed, h]

theorem stepConsumed_one_iff (part next : DiffChange) (rest : List DiffChange) :
    stepConsumed (part :: next :: rest) = 1 ↔ pairStep part next = false := by
  by_cases h : pairStep part next <;> simp [stepConsumed, h]

/-! ### Shapes of the standalone step -/

theorem standaloneRows_removed_eq (part : DiffChange) (o m : Nat) (hr : part.removed = true) :
    standaloneRows part o m =
      (((getDisplayLines part.value).enum.map fun p => realRow (o + p.1) p.2 .removed,
        (getDisplayLines part.value).map fun _ => placeholderRow),
       o + (getDisplayLines part.value).length, m) := by
  simp [standaloneRows, hr]

theorem standaloneRows_added_eq (part : DiffChange) (o m : Nat)
    (hr : part.removed = false) (ha : part.added = true) :
    standaloneRows part o m =
      (((getDisplayLines part.value).map fun _ => placeholderRow,
        (getDisplayLines part.value).enum.map fun p => realRow (m + p.1) p.2 .added),
       o, m + (getDisplayLines part.value).length) := by
  simp [standaloneRows, hr, ha]

theorem standaloneRows_common_eq (part : DiffChange) (o m : Nat)
    (hr : part.removed = false) (ha : part.added = false) :
    standaloneRows part o m =
      (((getDisplayLines part.value).enum.map fun p => realRow (o + p.1) p.2 .unchanged,
        (getDisplayLines part.value).enum.map fun p => realRow (m + p.1) p.2 .unchanged),
       o + (getDisplayLines part.value).length, m + (getDisplayLines part.value).length) := by
  simp [standaloneRows, hr, ha]

theorem standaloneRows_contents (part : DiffChange) (o m : Nat) (hok : opOK part = true) :
    paneContents (standaloneRows part o m).1.1 =
      (if part.added = true then [] else getDisplayLines part.value) ∧
    paneContents (standaloneRows part o m).1.2 =
      (if part.removed = true then [] else getDisplayLines part.value) := by
  by_cases hr : part.removed
  · have ha : part.added = false := by
      cases h : part.added
      · rfl
      · rw [opOK, h, hr] at hok
        simp at hok
    rw [standaloneRows_removed_eq part o m hr, hr, ha]
    constructor
    · rw [if_neg (by decide)]
      exact paneContents_realBlock _ o _ (by decide)
    · rw [if_pos rfl]
      exact paneContents_placeholders _
  · have hr' : part.removed = false := by simpa using hr
    by_cases ha : part.added
    · rw [standaloneRows_added_eq part o m hr' ha, hr', ha]
      constructor
      · rw [if_pos rfl]
        exact paneContents_placeholders _
      · rw [if_neg (by decide)]
        exact paneContents_realBlock _ m _ (by decide)
    · have ha' : part.added = false := by simpa using ha
      rw [standaloneRows_common_eq part o m hr' ha', hr', ha']
      constructor
      · rw [if_neg (by decide)]
        exact paneContents_realBlock _ o _ (by decide)
      · rw [if_neg (by decide)]
        exact paneContents_realBlock _ m _ (by decide)

theorem pairStep_parts {part next : DiffChange} (h : pairStep part next = true) :
    part.removed = true ∧ next.added = true ∧
      (getDisplayLines part.value).length = (getDisplayLines next.value).length := by
  rw [pairStep, Bool.and_eq_true, pairCond] at h
  obtain ⟨hc, hl⟩ := h
  simp only [Bool.and_eq_true] at hc
  exact ⟨hc.1.1.1, hc.1.1.2, by simpa using hl⟩

theorem wellTyped_cons {part : DiffChange} {rest : List DiffChange}
    (h : wellTyped (part :: rest) = true) : opOK part = true ∧ wellTyped rest = true := by
  rw [wellTyped, List.all_cons, Bool.and_eq_true] at h
  exact h

theorem opOK_removed {part : DiffChange} (hok : opOK part = true) (hr : part.removed = true) :
    part.added = false := by
  cases h : part.added
  · rfl
  · rw [opOK, h, hr] at hok
    simp at hok

theorem opOK_added {part : DiffChange} (hok : opOK part = true) (ha : part.added = true) :
    part.removed = false := by
  cases h : part.removed
  · rfl
  · rw [opOK, h, ha] at hok
    simp at hok

/-! ### Pane contents follow the operations that own each side -/

theorem alignLoop_contents (cd : JStr → JStr → List CharDiffOp) (hcd : cdOK cd) :
    ∀ (ops : List DiffChange) (o m : Nat), wellTyped ops = true →
      paneContents (alignLoop cd ops o m).1 =
        (ops.filter fun p => !p.added).flatMap (fun p => getDisplayLines p.value) ∧
      paneContents (alignLoop cd ops o m).2 =
        (ops.filter fun p => !p.removed).flatMap (fun p => getDisplayLines p.value)
  | [], o, m, _ => by constructor <;> rfl
  | [part], o, m, hwt => by
    have hok := (wellTyped_cons hwt).1
    have hsc := standaloneRows_contents part o m hok
    rw [alignLoop_single]
    dsimp only
    constructor
    · rw [hsc.1]
      by_cases ha : part.added <;> simp [ha]
    · rw [hsc.2]
      by_cases hr : part.removed <;> simp [hr]
  | part :: next :: rest, o, m, hwt => by
    have hok := (wellTyped_cons hwt).1
    have hwt1 := (wellTyped_cons hwt).2
    have hok2 := (wellTyped_cons hwt1).1
    have hwt2 := (wellTyped_cons hwt1).2
    by_cases h : pairStep part next
    · obtain ⟨hpr, hna, hlen⟩ := pairStep_parts h
      have hpa : part.added = false := opOK_removed hok hpr
      have hnr : next.removed = false := opOK_added hok2 hna
      have ih := alignLoop_contents cd hcd rest
        (o + (getDisplayLines part.value).length) (m + (getDisplayLines next.value).length) hwt2
      rw [alignLoop_pair_true cd part next rest o m h]
      constructor
      · rw [paneContents_append, paneContents_pairRows_fst hcd _ _ o m hlen, ih.1]
        simp [hpa, hna]
      · rw [paneContents_append, paneContents_pairRows_snd hcd _ _ o m hlen, ih.2]
        simp [hpr, hnr]
    · have ih := alignLoop_contents cd hcd (next :: rest)
        (standaloneRows part o m).2.1 (standaloneRows part o m).2.2 hwt1
      have hsc := standaloneRows_contents part o m hok
      rw [alignLoop_pair_false cd part next rest o m (by simpa using h)]
      constructor
      · rw [paneContents_append, hsc.1, ih.1]
        by_cases ha : part.added <;> simp [ha]
      · rw [paneContents_append, hsc.2, ih.2]
        by_cases hr : part.removed <;> simp [hr]

/-! ### Line numbers are consecutive per pane -/

theorem alignLoop_nums (cd : JStr → JStr → List CharDiffOp) :
    ∀ (ops : List DiffChange) (o m : Nat),
      (∃ k, rowNums (alignLoop cd ops o m).1 = (List.range' o k).map some) ∧
      (∃ k, rowNums (alignLoop cd ops o m).2 = (List.range' m k).map some)
  | [], o, m => ⟨⟨0, rfl⟩, ⟨0, rfl⟩⟩
  | [part], o, m => by
    rw [alignLoop_single]
    by_cases hr : part.removed
    · rw [standaloneRows_removed_eq part o m hr]
      exact ⟨⟨_, rowNums_realBlock _ o _ (by decide)⟩, ⟨0, rowNums_placeholders _⟩⟩
    · have hr' : part.removed = false := by simpa using hr
      by_cases ha : part.added
      · rw [standaloneRows_added_eq part o m hr' ha]
        exact ⟨⟨0, rowNums_placeholders _⟩, ⟨_, rowNums_realBlock _ m _ (by decide)⟩⟩
      · have ha' : part.added = false := by simpa using ha
        rw [standaloneRows_common_eq part o m hr' ha']
        exact ⟨⟨_, rowNums_realBlock _ o _ (by decide)⟩, ⟨_, rowNums_realBlock _ m _ (by decide)⟩⟩
  | part :: next :: rest, o, m => by
    by_cases h : pairStep part next
    · have ih := alignLoop_nums cd rest
        (o + (getDisplayLines part.value).length) (m + (getDisplayLines next.value).length)
      obtain ⟨⟨k1, hk1⟩, ⟨k2, hk2⟩⟩ := ih
      have hlen := (pairStep_parts h).2.2
      have hz : ((getDisplayLines part.value).zip (getDisplayLines next.value)).length =
          (getDisplayLines part.value).length := by
        rw [List.length_zip, hlen, Nat.min_self]
      rw [alignLoop_pair_true cd part next rest o m h]
      constructor
      · refine ⟨(getDisplayLines part.value).length + k1, ?_⟩
        rw [rowNums_append, rowNums_pairRows_fst, hk1, hz, ← List.map_append,
          List.range'_append_1]
        simp [Nat.add_comm]
      · refine ⟨(getDisplayLines next.value).length + k2, ?_⟩
        rw [rowNums_append, rowNums_pairRows_snd, hk2, hz, hlen, ← List.map_append,
          List.range'_append_1]
        simp [Nat.add_comm]
    · rw [alignLoop_pair_false cd part next rest o m (by simpa using h)]
      by_cases hr : part.removed
      · rw [standaloneRows_removed_eq part o m hr]
        dsimp only
        obtain ⟨⟨k1, hk1⟩, ⟨k2, hk2⟩⟩ := alignLoop_nums cd (next :: rest)
          (o + (getDisplayLines part.value).length) m
        constructor
        · refine ⟨(getDisplayLines part.value).length + k1, ?_⟩
          rw [rowNums_append, rowNums_realBlock _ o _ (by decide), hk1, ← List.map_append,
            List.range'_append_1]
          simp [Nat.add_comm]
        · refine ⟨k2, ?_⟩
          rw [rowNums_append, rowNums_placeholders, hk2]
          rfl
      · have hr' : part.removed = false := by simpa using hr
        by_cases ha : part.added
        · rw [standaloneRows_added_eq part o m hr' ha]
          dsimp only
          obtain ⟨⟨k1, hk1⟩, ⟨k2, hk2⟩⟩ := alignLoop_nums cd (next :: rest)
            o (m + (getDisplayLines part.value).length)
          constructor
          · refine ⟨k1, ?_⟩
            rw [rowNums_append, rowNums_placeholders, hk1]
            rfl
          · refine ⟨(getDisplayLines part.value).length + k2, ?_⟩
            rw [rowNums_append, rowNums_realBlock _ m _ (by decide), hk2, ← List.map_append,
              List.range'_append_1]
            simp [Nat.add_comm]
        · have ha' : part.added = false := by simpa using ha
          rw [standaloneRows_common_eq part o m hr' ha']
          dsimp only
          obtain ⟨⟨k1, hk1⟩, ⟨k2, hk2⟩⟩ := alignLoop_nums cd (next :: rest)
            (o + (getDisplayLines part.value).length) (m + (getDisplayLines part.value).length)
          constructor
          · refine ⟨(getDisplayLines part.value).length + k1, ?_⟩
            rw [rowNums_append, rowNums_realBlock _ o _ (by decide), hk1, ← List.map_append,
              List.range'_append_1]
            simp [Nat.add_comm]
          · refine ⟨(getDisplayLines part.value).length + k2, ?_⟩
            rw [rowNums_append, rowNums_realBlock _ m _ (by decide), hk2, ← List.map_append,
              List.range'_append_1]
            simp [Nat.add_comm]

/-! ### Line number presence agrees with row style -/

/-- Whether each row of a list carries a line number exactly when it is not a
placeholder. -/
def numIffReal (rows : List Row) : Bool :=
  rows.all fun r => r.lineNumber.isSome == !(r.style == RowStyle.placeholder)

theorem numIffReal_append (a b : List Row) :
    numIffReal (a ++ b) = (numIffReal a && numIffReal b) := by
  simp [numIffReal, List.all_append]

theorem numIffReal_realBlock (ls : List JStr) (o : Nat) (sty : RowStyle)
    (h : (sty == RowStyle.placeholder) = false) :
    numIffReal (ls.enum.map fun q => realRow (o + q.1) q.2 sty) = true := by
  rw [numIffReal, List.all_eq_true]
  intro r hr
  obtain ⟨q, hq, rfl⟩ := List.mem_map.mp hr
  simp [realRow, h]

theorem numIffReal_placeholders (ls : List JStr) :
    numIffReal (ls.map fun _ => placeholderRow) = true := by
  rw [numIffReal, List.all_eq_true]
  intro r hr
  obtain ⟨x, hx, rfl⟩ := List.mem_map.mp hr
  simp [placeholderRow]

theorem numIffReal_pairRows_fst (cd : JStr → JStr → List CharDiffOp)
    (ol ml : List JStr) (o m : Nat) : numIffReal (pairRows cd ol ml o m).1 = true := by
  rw [numIffReal, List.all_eq_true]
  intro r hr
  obtain ⟨q, hq, rfl⟩ := List.mem_map.mp hr
  simp [origModRow]

theorem numIffReal_pairRows_snd (cd : JStr → JStr → List CharDiffOp)
    (ol ml : List JStr) (o m : Nat) : numIffReal (pairRows cd ol ml o m).2 = true := by
  rw [numIffReal, List.all_eq_true]
  intro r hr
  obtain ⟨q, hq, rfl⟩ := List.mem_map.mp hr
  simp [modModRow]

theorem alignLoop_numIffReal (cd : JStr → JStr → List CharDiffOp) :
    ∀ (ops : List DiffChange) (o m : Nat),
      numIffReal (alignLoop cd ops o m).1 = true ∧ numIffReal (alignLoop cd ops o m).2 = true
  | [], _, _ => ⟨rfl, rfl⟩
  | [part], o, m => by
    rw [alignLoop_single]
    dsimp only
    by_cases hr : part.removed
    · rw [standaloneRows_removed_eq part o m hr]
      exact ⟨numIffReal_realBlock _ o _ (by decide), numIffReal_placeholders _⟩
    · have hr' : part.removed = false := by simpa using hr
      by_cases ha : part.added
      · rw [standaloneRows_added_eq part o m hr' ha]
        exact ⟨numIffReal_placeholders _, numIffReal_realBlock _ m _ (by decide)⟩
      · have ha' : part.added = false := by simpa using ha
        rw [standaloneRows_common_eq part o m hr' ha']
        exact ⟨numIffReal_realBlock _ o _ (by decide), numIffReal_realBlock _ m _ (by decide)⟩
  | part :: next :: rest, o, m => by
    by_cases h : pairStep part next
    · have ih := alignLoop_numIffReal cd rest
        (o + (getDisplayLines part.value).length) (m + (getDisplayLines next.value).length)
      rw [alignLoop_pair_true cd part next rest o m h]
      constructor
      · rw [numIffReal_append, numIffReal_pairRows_fst, ih.1]
        rfl
      · rw [numIffReal_append, numIffReal_pairRows_snd, ih.2]
        rfl
    · rw [alignLoop_pair_false cd part next rest o m (by simpa using h)]
      by_cases hr : part.removed
      · rw [standaloneRows_removed_eq part o m hr]
        dsimp only
        have ih := alignLoop_numIffReal cd (next :: rest)
          (o + (getDisplayLines part.value).length) m
        constructor
        · rw [numIffReal_append, numIffReal_realBlock _ o _ (by decide), ih.1]
          rfl
        · rw [numIffReal_append, numIffReal_placeholders, ih.2]
          rfl
      · have hr' : part.removed = false := by simpa using hr
        by_cases ha : part.added
        · rw [standaloneRows_added_eq part o m hr' ha]
          dsimp only
          have ih := alignLoop_numIffReal cd (next :: rest)
            o (m + (getDisplayLines part.value).length)
          constructor
          · rw [numIffReal_append, numIffReal_placeholders, ih.1]
            rfl
          · rw [numIffReal_append, numIffReal_realBlock _ m _ (by decide), ih.2]
            rfl
        · have ha' : part.added = false := by simpa using ha
          rw [standaloneRows_common_eq part o m hr' ha']
          dsimp only
          have ih := alignLoop_numIffReal cd (next :: rest)
            (o + (getDisplayLines part.value).length) (m + (getDisplayLines part.value).length)
          constructor
          · rw [numIffReal_append, numIffReal_realBlock _ o _ (by decide), ih.1]
            rfl
          · rw [numIffReal_append, numIffReal_realBlock _ m _ (by decide), ih.2]
            rfl

theorem rowNums_range_of_exists {rows : List Row} {s k : Nat}
    (h : rowNums rows = (List.range' s k).map some) :
    rowNums rows = (List.range' s (realRows rows).length).map some := by
  have hk : (realRows rows).length = k := by
    have := congrArg List.length h
    simpa [rowNums] using this
  rw [hk]
  exact h

/-! ### Claim theorems -/

/-- C1: for every input operation sequence the two output row sequences have
equal length, and this holds as a running invariant: each processing step (a
standalone operation or a modified pair) emits equally many rows to both
panes, for any counter values reached during the walk. -/
theorem c1_alignment_invariant :
    (∀ (cd : JStr → JStr → List CharDiffOp) (ops : List DiffChange) (o m : Nat),
      (alignLoop cd ops o m).1.length = (alignLoop cd ops o m).2.length) ∧
    (∀ (part : DiffChange) (o m : Nat),
      (standaloneRows part o m).1.1.length = (standaloneRows part o m).1.2.length) ∧
    (∀ (cd : JStr → JStr → List CharDiffOp) (ol ml : List JStr) (o m : Nat),
      (pairRows cd ol ml o m).1.length = (pairRows cd ol ml o m).2.length) :=
  ⟨alignLoop_balanced, standaloneRows_balanced, pairRows_balanced⟩

/-- C4: the line splitter returns one empty line on the empty string, drops
the trailing empty segment when the text ends with a newline (which on the
single-newline string leaves exactly one empty line), returns the plain split
otherwise, and takes the six documented sample values. -/
theorem c4_line_splitter :
    getDisplayLines [] = [[]] ∧
    (∀ v : JStr, endsNl v = true → getDisplayLines v = (splitNl v).dropLast) ∧
    (∀ v : JStr, endsNl v = false → getDisplayLines v = splitNl v) ∧
    getDisplayLines ['\n'] = [[]] ∧
    getDisplayLines ['a'] = [['a']] ∧
    getDisplayLines ['a', '\n'] = [['a']] ∧
    getDisplayLines ['a', '\n', 'b'] = [['a'], ['b']] ∧
    getDisplayLines ['a', '\n', 'b', '\n'] = [['a'], ['b']] := by
  refine ⟨by decide, ?_, ?_, by decide, by decide, by decide, by decide, by decide⟩
  · intro v hv
    have hne : v ≠ [] := by
      intro he
      subst he
      simp [endsNl] at hv
    simp [getDisplayLines, hne, hv]
  · intro v hv
    exact getDisplayLines_not_endsNl hv

/-- Witness for C4: the two conditional clauses instantiated on concrete
strings. -/
theorem c4_line_splitter_witness :
    (endsNl ['a', '\n'] = true ∧ getDisplayLines ['a', '\n'] = (splitNl ['a', '\n']).dropLast) ∧
    (endsNl ['a'] = false ∧ getDisplayLines ['a'] = splitNl ['a']) :=
  ⟨⟨by decide, c4_line_splitter.2.1 ['a', '\n'] (by decide)⟩,
   ⟨by decide, c4_line_splitter.2.2.1 ['a'] (by decide)⟩⟩

/-- C7: for a modified-pair line the original-side spans are exactly the char
operations not marked added, in order, changed exactly when removed, and the
modified-side spans are exactly those not marked removed, changed exactly when
added; these are the span lists the emitted modified rows carry. -/
theorem c7_char_highlighter (cds : List CharDiffOp) :
    origSpans cds = specOrigSpans cds ∧ modSpans cds = specModSpans cds ∧
    (∀ n, (origModRow n cds).spans = some (origSpans cds)) ∧
    (∀ n, (modModRow n cds).spans = some (modSpans cds)) := by
  refine ⟨?_, ?_, fun _ => rfl, fun _ => rfl⟩
  · induction cds with
    | nil => rfl
    | cons c cs ih =>
      by_cases hc : c.added <;>
        simp [origSpans, specOrigSpans, List.filterMap_cons, List.filter_cons, hc] <;>
        simpa [origSpans, specOrigSpans] using ih
  · induction cds with
    | nil => rfl
    | cons c cs ih =>
      by_cases hc : c.removed <;>
        simp [modSpans, specModSpans, List.filterMap_cons, List.filter_cons, hc] <;>
        simpa [modSpans, specModSpans] using ih

/-- C8: in each pane a row carries a line number exactly when it is not a
placeholder, and the line numbers of the non-placeholder rows, read in order,
are the consecutive integers starting at 1, independently per pane. -/
theorem c8_line_numbers (cd : JStr → JStr → List CharDiffOp) (ops : List DiffChange) :
    numIffReal (alignLoop cd ops 1 1).1 = true ∧
    numIffReal (alignLoop cd ops 1 1).2 = true ∧
    rowNums (alignLoop cd ops 1 1).1 =
      (List.range' 1 (realRows (alignLoop cd ops 1 1).1).length).map some ∧
    rowNums (alignLoop cd ops 1 1).2 =
      (List.range' 1 (realRows (alignLoop cd ops 1 1).2).length).map some := by
  obtain ⟨h1, h2⟩ := alignLoop_numIffReal cd ops 1 1
  obtain ⟨⟨k1, hk1⟩, ⟨k2, hk2⟩⟩ := alignLoop_nums cd ops 1 1
  exact ⟨h1, h2, rowNums_range_of_exists hk1, rowNums_range_of_exists hk2⟩

/-- C9: the aligner is a total function; every input, including ones with
inconsistent count metadata or empty texts, yields a well-formed render
result (two row lists of equal length), and the empty/sentinel result is
produced exactly for the empty operation sequence. -/
theorem c9_total_never_throws (cd : JStr → JStr → List CharDiffOp) (ops : List DiffChange) :
    wfRender (DiffDisplay cd ops) ∧ (DiffDisplay cd ops = RenderResult.empty ↔ ops = []) := by
  cases ops with
  | nil => exact ⟨trivial, by simp [DiffDisplay]⟩
  | cons p ps =>
    constructor
    · simpa [DiffDisplay, wfRender] using alignLoop_balanced cd (p :: ps) 1 1
    · simp [DiffDisplay]

/-- C10: the line splitter returns at least one line on every input string,
so every operation contributes at least one row to each pane, whether
consumed standalone or as half of a modified pair. -/
theorem c10_at_least_one_row :
    (∀ v : JStr, 1 ≤ (getDisplayLines v).length) ∧
    (∀ (part : DiffChange) (o m : Nat),
      1 ≤ (standaloneRows part o m).1.1.length ∧ 1 ≤ (standaloneRows part o m).1.2.length) ∧
    (∀ (cd : JStr → JStr → List CharDiffOp) (a b : JStr) (o m : Nat),
      1 ≤ (pairRows cd (getDisplayLines a) (getDisplayLines b) o m).1.length ∧
      1 ≤ (pairRows cd (getDisplayLines a) (getDisplayLines b) o m).2.length) := by
  have hg : ∀ v : JStr, 1 ≤ (getDisplayLines v).length := by
    intro v
    cases h : getDisplayLines v with
    | nil => exact absurd h (getDisplayLines_ne_nil v)
    | cons a l => simp
  refine ⟨hg, ?_, ?_⟩
  · intro part o m
    by_cases hr : part.removed
    · rw [standaloneRows_removed_eq part o m hr]
      constructor <;> simpa using hg part.value
    · have hr' : part.removed = false := by simpa using hr
      by_cases ha : part.added
      · rw [standaloneRows_added_eq part o m hr' ha]
        constructor <;> simpa using hg part.value
      · have ha' : part.added = false := by simpa using ha
        rw [standaloneRows_common_eq part o m hr' ha']
        constructor <;> simpa using hg part.value
  · intro cd a b o m
    have : 1 ≤ ((getDisplayLines a).zip (getDisplayLines b)).length := by
      rw [List.length_zip]
      exact le_min (hg a) (hg b)
    constructor <;> simpa [pairRows] using this

theorem flatMap_vals (ops : List DiffChange) (pred : DiffChange → Bool) :
    ((ops.filter pred).map DiffChange.value).flatMap getDisplayLines =
      (ops.filter pred).flatMap fun p => getDisplayLines p.value := by
  rw [List.flatMap_map]

theorem simpleCharDiff_ok : cdOK simpleCharDiff := by
  intro a b
  constructor <;> simp [simpleCharDiff, origSpans, modSpans, spansText]

/-- C2 counterexample: a removed operation of declared count 2 followed by an
added operation of declared count 2 satisfies the claimed pairing condition,
yet the loop consumes only one operation because the texts actually split to
1 and 2 lines. -/
theorem c2_counterexample :
    pairCond ⟨['a'], false, true, some 2⟩ ⟨['x', '\n', 'y'], true, false, some 2⟩ = true ∧
    stepConsumed
      [⟨['a'], false, true, some 2⟩, ⟨['x', '\n', 'y'], true, false, some 2⟩] = 1 := by
  decide

/-- C2 (amended): two operations are consumed together (advancing by 2)
exactly when the declared-count pairing condition holds AND the two texts
split to equal actual line counts; in every other case exactly one operation
is consumed. -/
theorem c2_pair_consumption (part next : DiffChange) (rest : List DiffChange) :
    (stepConsumed (part :: next :: rest) = 2 ↔
      (pairCond part next = true ∧
        (getDisplayLines part.value).length = (getDisplayLines next.value).length)) ∧
    (stepConsumed (part :: next :: rest) = 1 ↔
      ¬(pairCond part next = true ∧
        (getDisplayLines part.value).length = (getDisplayLines next.value).length)) ∧
    stepConsumed [part] = 1 := by
  have hps : pairStep part next = true ↔
      (pairCond part next = true ∧
        (getDisplayLines part.value).length = (getDisplayLines next.value).length) := by
    simp [pairStep]
  refine ⟨?_, ?_, rfl⟩
  · rw [stepConsumed_two_iff]
    exact hps
  · rw [stepConsumed_one_iff, ← hps]
    simp

/-- C3: when the declared-count pairing condition holds but the two texts
split to different actual line counts, no partial pairing happens: the
removed operation renders standalone (red rows, placeholders opposite), then
the added operation renders standalone (placeholders, green rows opposite),
and the loop continues at the updated counters. -/
theorem c3_unequal_split_fallback (cd : JStr → JStr → List CharDiffOp)
    (part next : DiffChange) (rest : List DiffChange) (o m : Nat)
    (hpr : part.removed = true) (hna : next.added = true) (hnr : next.removed = false)
    (hpc : pairCond part next = true)
    (hne : (getDisplayLines part.value).length ≠ (getDisplayLines next.value).length) :
    alignLoop cd (part :: next :: rest) o m =
      ((getDisplayLines part.value).enum.map (fun q => realRow (o + q.1) q.2 .removed) ++
        ((getDisplayLines next.value).map (fun _ => placeholderRow) ++
          (alignLoop cd rest (o + (getDisplayLines part.value).length)
            (m + (getDisplayLines next.value).length)).1),
       (getDisplayLines part.value).map (fun _ => placeholderRow) ++
        ((getDisplayLines next.value).enum.map (fun q => realRow (m + q.1) q.2 .added) ++
          (alignLoop cd rest (o + (getDisplayLines part.value).length)
            (m + (getDisplayLines next.value).length)).2)) := by
  have hbeq : ((getDisplayLines part.value).length == (getDisplayLines next.value).length)
      = false := by
    simp [hne]
  have hps : pairStep part next = false := by
    simp [pairStep, hbeq]
  rw [alignLoop_pair_false cd part next rest o m hps,
    standaloneRows_removed_eq part o m hpr]
  dsimp only
  cases rest with
  | nil =>
    rw [alignLoop_single, standaloneRows_added_eq next _ _ hnr hna]
    dsimp only
    rw [alignLoop_nil]
    simp
  | cons r rs =>
    have hps2 : pairStep next r = false := by
      simp [pairStep, pairCond, hnr]
    rw [alignLoop_pair_false cd next r rs _ _ hps2,
      standaloneRows_added_eq next _ _ hnr hna]

/-- Witness for C3: the fallback evaluated on the concrete mismatched pair. -/
theorem c3_unequal_split_fallback_witness :
    pairCond ⟨['a'], false, true, some 2⟩ ⟨['x', '\n', 'y'], true, false, some 2⟩ = true ∧
    (getDisplayLines ['a']).length ≠ (getDisplayLines ['x', '\n', 'y']).length ∧
    alignLoop simpleCharDiff
        [⟨['a'], false, true, some 2⟩, ⟨['x', '\n', 'y'], true, false, some 2⟩] 1 1 =
      ((getDisplayLines ['a']).enum.map (fun q => realRow (1 + q.1) q.2 .removed) ++
        ((getDisplayLines ['x', '\n', 'y']).map (fun _ => placeholderRow) ++
          (alignLoop simpleCharDiff [] (1 + (getDisplayLines ['a']).length)
            (1 + (getDisplayLines ['x', '\n', 'y']).length)).1),
       (getDisplayLines ['a']).map (fun _ => placeholderRow) ++
        ((getDisplayLines ['x', '\n', 'y']).enum.map (fun q => realRow (1 + q.1) q.2 .added) ++
          (alignLoop simpleCharDiff [] (1 + (getDisplayLines ['a']).length)
            (1 + (getDisplayLines ['x', '\n', 'y']).length)).2)) :=
  ⟨by decide, by decide,
   c3_unequal_split_fallback simpleCharDiff _ _ [] 1 1 rfl rfl rfl (by decide) (by decide)⟩

/-- C5 counterexample: the operation marked both added and removed renders as
one removed row plus a placeholder opposite, not as an unchanged row in both
panes with both counters advancing. -/
theorem c5_counterexample :
    alignLoop simpleCharDiff [⟨['x'], true, true, some 1⟩] 1 1 =
      ([realRow 1 ['x'] .removed], [placeholderRow]) ∧
    alignLoop simpleCharDiff [⟨['x'], true, true, some 1⟩] 1 1 ≠
      ([realRow 1 ['x'] .unchanged], [realRow 1 ['x'] .unchanged]) := by
  decide

/-- C5 (amended): an operation marked both added and removed, when not
consumed into a modified pair, is treated as Removed - per line one removed
row in the original pane (advancing only the original counter) and a
placeholder in the modified pane - and the total function never fails. -/
theorem c5_malformed_treated_removed (cd : JStr → JStr → List CharDiffOp)
    (op : DiffChange) (rest : List DiffChange) (o m : Nat)
    (ha : op.added = true) (hr : op.removed = true)
    (hone : stepConsumed (op :: rest) = 1) :
    alignLoop cd (op :: rest) o m =
      ((getDisplayLines op.value).enum.map (fun q => realRow (o + q.1) q.2 .removed) ++
        (alignLoop cd rest (o + (getDisplayLines op.value).length) m).1,
       (getDisplayLines op.value).map (fun _ => placeholderRow) ++
        (alignLoop cd rest (o + (getDisplayLines op.value).length) m).2) := by
  have h : ∀ next rest2, rest = next :: rest2 → pairStep op next = false := by
    intro next rest2 he
    subst he
    rw [stepConsumed_one_iff] at hone
    exact hone
  rw [alignLoop_cons_no_pair cd op rest o m h, standaloneRows_removed_eq op o m hr]

/-- Witness for C5 (amended) at a concrete malformed operation. -/
theorem c5_malformed_treated_removed_witness :
    (⟨['x'], true, true, some 1⟩ : DiffChange).added = true ∧
    (⟨['x'], true, true, some 1⟩ : DiffChange).removed = true ∧
    stepConsumed [⟨['x'], true, true, some 1⟩] = 1 ∧
    alignLoop simpleCharDiff [⟨['x'], true, true, some 1⟩] 1 1 =
      ((getDisplayLines ['x']).enum.map (fun q => realRow (1 + q.1) q.2 .removed) ++
        (alignLoop simpleCharDiff [] (1 + (getDisplayLines ['x']).length) 1).1,
       (getDisplayLines ['x']).map (fun _ => placeholderRow) ++
        (alignLoop simpleCharDiff [] (1 + (getDisplayLines ['x']).length) 1).2) :=
  ⟨rfl, rfl, rfl, c5_malformed_treated_removed simpleCharDiff _ [] 1 1 rfl rfl rfl⟩

/-- C6 counterexample: a single common operation with text "a\n" reconstructs
to "a"; the trailing newline of the input is lost, so the round trip is not
exact. -/
theorem c6_counterexample :
    paneText (alignLoop simpleCharDiff [⟨['a', '\n'], false, false, some 1⟩] 1 1).1 = ['a'] ∧
    (origVals [⟨['a', '\n'], false, false, some 1⟩]).flatten = ['a', '\n'] ∧
    paneText (alignLoop simpleCharDiff [⟨['a', '\n'], false, false, some 1⟩] 1 1).1 ≠
      (origVals [⟨['a', '\n'], false, false, some 1⟩]).flatten := by
  decide

/-- C6 (amended): for well-typed operations whose owning texts chain
canonically on each side (every value but the last ends with a newline, the
last does not) and a character differ satisfying the reconstruction contract,
joining each pane's non-placeholder contents with newlines reproduces exactly
the concatenation of that side's owning operation texts. -/
theorem c6_reconstruction (cd : JStr → JStr → List CharDiffOp) (ops : List DiffChange)
    (hcd : cdOK cd) (hwt : wellTyped ops = true)
    (ho : chainOK (origVals ops) = true) (hm : chainOK (modVals ops) = true) :
    paneText (alignLoop cd ops 1 1).1 = (origVals ops).flatten ∧
    paneText (alignLoop cd ops 1 1).2 = (modVals ops).flatten := by
  obtain ⟨h1, h2⟩ := alignLoop_contents cd hcd ops 1 1 hwt
  constructor
  · rw [paneText, h1, ← flatMap_vals ops (fun p => !p.added),
      show (ops.filter fun p => !p.added).map DiffChange.value = origVals ops from rfl]
    exact joinNl_flatMap_chainOK _ ho
  · rw [paneText, h2, ← flatMap_vals ops (fun p => !p.removed),
      show (ops.filter fun p => !p.removed).map DiffChange.value = modVals ops from rfl]
    exact joinNl_flatMap_chainOK _ hm

/-- Witness for C6 (amended): a common "a\n", a removed "b" paired with an
added "c", reconstructing "a\nb" and "a\nc". -/
theorem c6_reconstruction_witness :
    wellTyped [⟨['a', '\n'], false, false, some 1⟩, ⟨['b'], false, true, some 1⟩,
        ⟨['c'], true, false, some 1⟩] = true ∧
    chainOK (origVals [⟨['a', '\n'], false, false, some 1⟩, ⟨['b'], false, true, some 1⟩,
        ⟨['c'], true, false, some 1⟩]) = true ∧
    chainOK (modVals [⟨['a', '\n'], false, false, some 1⟩, ⟨['b'], false, true, some 1⟩,
        ⟨['c'], true, false, some 1⟩]) = true ∧
    (paneText (alignLoop simpleCharDiff [⟨['a', '\n'], false, false, some 1⟩,
        ⟨['b'], false, true, some 1⟩, ⟨['c'], true, false, some 1⟩] 1 1).1 =
      (origVals [⟨['a', '\n'], false, false, some 1⟩, ⟨['b'], false, true, some 1⟩,
        ⟨['c'], true, false, some 1⟩]).flatten ∧
     paneText (alignLoop simpleCharDiff [⟨['a', '\n'], false, false, some 1⟩,
        ⟨['b'], false, true, some 1⟩, ⟨['c'], true, false, some 1⟩] 1 1).2 =
      (modVals [⟨['a', '\n'], false, false, some 1⟩, ⟨['b'], false, true, some 1⟩,
        ⟨['c'], true, false, some 1⟩]).flatten) :=
  ⟨by decide, by decide, by decide,
   c6_reconstruction simpleCharDiff _ simpleCharDiff_ok (by decide) (by decide) (by decide)⟩

end Studio
